import Mathlib

/-!
Shallow embedding of `jax_privacy` components under verification:

* `VirtualBatching` from `src/jax_privacy/src/training/batching.py`
* `ArrayConcatenater` and `per_class_disparity` from
  `src/experiments/image_classification/metrics.py`

All integer quantities (batch sizes, step counts, device counts, schedule
boundaries and scales) are embedded as `Nat`, matching the declared Python
types (`int`, `Dict[int, int]` for the scale schedule) on the domain the
spec is about.  Accuracy ratios in `per_class_disparity` are embedded as
exact rationals.
-/

namespace JaxPrivacy

/-! ## VirtualBatching (src/jax_privacy/src/training/batching.py) -/

/-- Failure modes of `VirtualBatching.__init__`:
`valueError` is the explicit `raise ValueError` for a non-divisible batch
size; `zeroDivisionError` is the Python `ZeroDivisionError` raised by
`batch_size_init % batch_size_per_step` when the per-step batch size is 0. -/
inductive ConstructError where
  | valueError
  | zeroDivisionError
deriving DecidableEq, Repr

/-- State stored by a successfully constructed `VirtualBatching` object.
`scale_schedule` embeds the `Dict[int, int]` of the Python code as a list of
(boundary, scale) pairs. -/
structure VirtualBatching where
  batch_size_init : Nat
  batch_size_per_device_per_step : Nat
  scale_schedule : List (Nat × Nat)
  num_devices : Nat
deriving DecidableEq, Repr

/-- Insert a (boundary, scale) pair into a list sorted by boundary. -/
def insertByBoundary (p : Nat × Nat) : List (Nat × Nat) → List (Nat × Nat)
  | [] => [p]
  | q :: qs => if p.1 ≤ q.1 then p :: q :: qs else q :: insertByBoundary p qs

/-- Sort a (boundary, scale) list by boundary, as
`sorted(boundaries_and_scales.items())` does inside
`optax.piecewise_constant_schedule`. -/
def sortByBoundary (l : List (Nat × Nat)) : List (Nat × Nat) :=
  l.foldr insertByBoundary []

/-- `VirtualBatching.__init__`.  The caller may omit `num_devices` (Python
default `None`), in which case the constructor falls back to
`jax.device_count()`; that environment query is embedded as the explicit
parameter `env_device_count`.  Construction fails with `ValueError` when
`batch_size_init % batch_size_per_step` is nonzero, and with
`ZeroDivisionError` when `batch_size_per_step` is zero. -/
def VirtualBatching.construct (env_device_count : Nat)
    (batch_size_init batch_size_per_device_per_step : Nat)
    (scale_schedule : List (Nat × Nat)) (num_devices : Option Nat) :
    Except ConstructError VirtualBatching :=
  if batch_size_per_device_per_step * num_devices.getD env_device_count = 0 then
    .error .zeroDivisionError
  else if batch_size_init %
      (batch_size_per_device_per_step * num_devices.getD env_device_count) ≠ 0 then
    .error .valueError
  else
    .ok ⟨batch_size_init, batch_size_per_device_per_step, scale_schedule,
         num_devices.getD env_device_count⟩

/-- `VirtualBatching.batch_size`: evaluates the piecewise-constant schedule
built by `optax.piecewise_constant_schedule(init_value, boundaries_and_scales)`
at `global_step`.  Optax iterates over the sorted boundary/scale items and
replaces `v` by `scale * v` whenever `global_step >= boundary`. -/
def VirtualBatching.batch_size (vb : VirtualBatching) (global_step : Nat) : Nat :=
  (sortByBoundary vb.scale_schedule).foldl
    (fun v bs => if global_step < bs.1 then v else v * bs.2)
    vb.batch_size_init

/-- `VirtualBatching.batch_size_per_step` (a `@property`):
`batch_size_per_device_per_step * num_devices`. -/
def VirtualBatching.batch_size_per_step (vb : VirtualBatching) : Nat :=
  vb.batch_size_per_device_per_step * vb.num_devices

/-- `VirtualBatching.apply_update_every`:
`batch_size(global_step) // batch_size_per_step`. -/
def VirtualBatching.apply_update_every (vb : VirtualBatching) (global_step : Nat) : Nat :=
  vb.batch_size global_step / vb.batch_size_per_step

/-- `VirtualBatching.data_seen`: `global_step * batch_size_per_step`. -/
def VirtualBatching.data_seen (vb : VirtualBatching) (global_step : Nat) : Nat :=
  global_step * vb.batch_size_per_step

/-- One query against a constructed `VirtualBatching` object, used to talk
about arbitrary call sequences against one instance. -/
inductive Query where
  | batchSize (global_step : Nat)
  | batchSizePerStep
  | applyUpdateEvery (global_step : Nat)
  | dataSeen (global_step : Nat)
deriving DecidableEq, Repr

/-- Evaluate one query.  After `__init__`, the Python object only reads its
attributes, so each query is a function of the stored fields and the step. -/
def evalQuery (vb : VirtualBatching) : Query → Nat
  | .batchSize s => vb.batch_size s
  | .batchSizePerStep => vb.batch_size_per_step
  | .applyUpdateEvery s => vb.apply_update_every s
  | .dataSeen s => vb.data_seen s

/-- Run a sequence of queries against one instance, collecting the results
in call order. -/
def runQueries (vb : VirtualBatching) (qs : List Query) : List Nat :=
  qs.map (evalQuery vb)

/-! ## ArrayConcatenater (src/experiments/image_classification/metrics.py)

Array elements are embedded as `Nat`; `ArrayConcatenater` never inspects
them, only slices and concatenates. -/

/-- State of an `ArrayConcatenater`: the list of stored arrays `_array`,
the optional capacity `_max_len` and the running length `_current_len`. -/
structure ArrayConcatenater where
  _array : List (List Nat)
  _max_len : Option Nat
  _current_len : Nat
deriving DecidableEq, Repr

namespace ArrayConcatenater

/-- `ArrayConcatenater.__init__`. -/
def init (max_len : Option Nat) : ArrayConcatenater :=
  ⟨[], max_len, 0⟩

/-- `ArrayConcatenater.append`.  With a capacity, `array[:max_len - current_len]`
is `List.take (max_len - current_len)`; once `current_len < max_len` fails,
`to_append` is `None` and the state is left unchanged. -/
def append (st : ArrayConcatenater) (array : List Nat) : ArrayConcatenater :=
  let to_append : Option (List Nat) :=
    match st._max_len with
    | none => some array
    | some m =>
        if st._current_len < m then some (array.take (m - st._current_len))
        else none
  match to_append with
  | some xs =>
      { st with
        _array := st._array ++ [xs]
        _current_len := st._current_len + xs.length }
  | none => st

/-- `ArrayConcatenater.asarray`: `np.concatenate(self._array)`. -/
def asarray (st : ArrayConcatenater) : List Nat :=
  st._array.flatten

/-- A whole sequence of `append` calls, in order. -/
def appendAll (st : ArrayConcatenater) (arrays : List (List Nat)) : ArrayConcatenater :=
  arrays.foldl append st

end ArrayConcatenater

/-! ## per_class_disparity (src/experiments/image_classification/metrics.py)

`per_class_disparity` first collapses the one-hot inputs with `argmax`, so
the embedding takes the collapsed integer sequences `labels` and
`predictions` directly (quantifying over all of them covers every argmax
outcome).  `sklearn.confusion_matrix` and the accuracy ratios are embedded
over `ℚ`. -/

/-- Entry (i, j) of `sklearn_metrics.confusion_matrix(labels, predictions)`:
the number of positions carrying true label `i` and prediction `j`. -/
def confusionMatrix (labels predictions : List Nat) (i j : Nat) : Nat :=
  ((labels.zip predictions).filter (fun p => p.1 = i ∧ p.2 = j)).length

/-- `avg_acc = cm.diagonal().sum() / cm.sum()` where the matrix ranges over
the `n` classes. -/
def avg_acc (n : Nat) (labels predictions : List Nat) : ℚ :=
  (∑ i ∈ Finset.range n, (confusionMatrix labels predictions i i : ℚ)) /
    (∑ i ∈ Finset.range n, ∑ j ∈ Finset.range n,
      (confusionMatrix labels predictions i j : ℚ))

/-- `per_class_mean[i] = cm[i, i] / cm.sum(axis=1)[i]`: the accuracy of
class `i` among examples whose true label is `i`. -/
def per_class_mean (n : Nat) (labels predictions : List Nat) (i : Nat) : ℚ :=
  (confusionMatrix labels predictions i i : ℚ) /
    (∑ j ∈ Finset.range n, (confusionMatrix labels predictions i j : ℚ))

/-- The `min_disparity_abs` accumulator of the loop in `per_class_disparity`:
start at 0 and replace by `class_acc - avg_acc` whenever that is smaller. -/
def minDisparityAbs (n : Nat) (class_acc : Nat → ℚ) (avg : ℚ) : ℚ :=
  (List.range n).foldl
    (fun m i => if class_acc i - avg < m then class_acc i - avg else m) 0

/-- The `max_disparity_rel` accumulator of the loop in `per_class_disparity`:
start at 1 and, while `avg_acc != 1`, replace by
`(1 - class_acc) / (1 - avg_acc)` whenever that is larger. -/
def maxDisparityRel (n : Nat) (class_acc : Nat → ℚ) (avg : ℚ) : ℚ :=
  (List.range n).foldl
    (fun m i =>
      if avg ≠ 1 then
        if m < (1 - class_acc i) / (1 - avg) then (1 - class_acc i) / (1 - avg)
        else m
      else m) 1

/-- The pair (stats[min_disparity_abs], stats[max_disparity_rel]) returned
by `per_class_disparity` for `n` classes, after one-hot inputs are collapsed
to `labels` and `predictions`. -/
def per_class_disparity (n : Nat) (labels predictions : List Nat) : ℚ × ℚ :=
  let avg := avg_acc n labels predictions
  (minDisparityAbs n (per_class_mean n labels predictions) avg,
   maxDisparityRel n (per_class_mean n labels predictions) avg)

/-! ## Helper lemmas about VirtualBatching -/

lemma mem_insertByBoundary {q p : Nat × Nat} {l : List (Nat × Nat)} :
    q ∈ insertByBoundary p l ↔ q = p ∨ q ∈ l := by
  induction l with
  | nil => simp [insertByBoundary]
  | cons x xs ih =>
      simp only [insertByBoundary]
      split
      · simp [List.mem_cons]
      · simp only [List.mem_cons, ih]
        tauto

lemma mem_sortByBoundary {q : Nat × Nat} {l : List (Nat × Nat)} :
    q ∈ sortByBoundary l ↔ q ∈ l := by
  induction l with
  | nil => simp [sortByBoundary]
  | cons x xs ih =>
      simp only [sortByBoundary, List.foldr_cons] at *
      rw [mem_insertByBoundary, ih, List.mem_cons]

lemma dvd_foldl_scale (s d : Nat) :
    ∀ (l : List (Nat × Nat)) (init : Nat), d ∣ init →
      d ∣ l.foldl (fun v bs => if s < bs.1 then v else v * bs.2) init := by
  intro l
  induction l with
  | nil => intro init h; simpa using h
  | cons x xs ih =>
      intro init h
      simp only [List.foldl_cons]
      apply ih
      split
      · exact h
      · exact h.mul_right x.2

lemma le_foldl_scale (s : Nat) :
    ∀ (l : List (Nat × Nat)) (init : Nat), (∀ p ∈ l, 1 ≤ p.2) →
      init ≤ l.foldl (fun v bs => if s < bs.1 then v else v * bs.2) init := by
  intro l
  induction l with
  | nil => intro init _; simp
  | cons x xs ih =>
      intro init h
      simp only [List.foldl_cons]
      refine le_trans ?_ (ih _ fun p hp => h p (List.mem_cons_of_mem _ hp))
      split
      · exact le_refl _
      · exact Nat.le_mul_of_pos_right init (h x (List.mem_cons_self _ _))

lemma construct_ok_elim {env init pdev : Nat} {sched : List (Nat × Nat)}
    {nd : Option Nat} {vb : VirtualBatching}
    (h : VirtualBatching.construct env init pdev sched nd = .ok vb) :
    vb = ⟨init, pdev, sched, nd.getD env⟩ ∧
      pdev * nd.getD env ≠ 0 ∧ init % (pdev * nd.getD env) = 0 := by
  unfold VirtualBatching.construct at h
  split at h
  · exact absurd h (by simp)
  · split at h
    · exact absurd h (by simp)
    · rename_i h1 h2
      simp only [Except.ok.injEq] at h
      exact ⟨h.symm, h1, not_not.mp h2⟩

/-! ## Claims C1 to C8 -/

/-- C1: Construction fails with the divisibility `ValueError` exactly when
`batch_size_init` is not a multiple of
`batch_size_per_device_per_step * num_devices` (the per-step product being
positive); in particular `batch_size_init=100, batch_size_per_device_per_step=32,
num_devices=2` fails, and every divisible `batch_size_init` succeeds. -/
theorem claim_C1_construction_divisibility :
    (∀ env init pdev sched nd, 0 < pdev * nd →
      (init % (pdev * nd) ≠ 0 →
        VirtualBatching.construct env init pdev sched (some nd) =
          .error .valueError) ∧
      (init % (pdev * nd) = 0 →
        (VirtualBatching.construct env init pdev sched (some nd)).isOk = true)) ∧
    VirtualBatching.construct 2 100 32 [] (some 2) = .error .valueError := by
  constructor
  · intro env init pdev sched nd hpos
    constructor
    · intro hne
      simp [VirtualBatching.construct, Nat.pos_iff_ne_zero.mp hpos, hne]
    · intro he
      simp [VirtualBatching.construct, Nat.pos_iff_ne_zero.mp hpos, he,
        Except.isOk, Except.toBool]
  · rfl

/-- Witness for C1 at concrete inputs: 128 is divisible by 32 * 2 and the
construction succeeds; 100 is not and the construction fails. -/
theorem claim_C1_construction_divisibility_witness :
    ((0:Nat) < 32 * 2 ∧
      (VirtualBatching.construct 2 128 32 [] (some 2)).isOk = true) ∧
    ((0:Nat) < 32 * 2 ∧
      VirtualBatching.construct 2 100 32 [] (some 2) = .error .valueError) :=
  ⟨⟨by decide,
    (claim_C1_construction_divisibility.1 2 128 32 [] 2 (by decide)).2 (by decide)⟩,
   ⟨by decide,
    (claim_C1_construction_divisibility.1 2 100 32 [] 2 (by decide)).1 (by decide)⟩⟩

/-- C2: Every successfully constructed instance, with any scale schedule,
satisfies the divisibility invariant at every step:
`batch_size(global_step)` is a multiple of `batch_size_per_step`. -/
theorem claim_C2_schedule_divisibility :
    ∀ env init pdev sched nd (vb : VirtualBatching),
      VirtualBatching.construct env init pdev sched nd = .ok vb →
      ∀ global_step : Nat,
        vb.batch_size global_step % vb.batch_size_per_step = 0 := by
  intro env init pdev sched nd vb h global_step
  obtain ⟨rfl, hne, hmod⟩ := construct_ok_elim h
  have hdvd := dvd_foldl_scale global_step (pdev * nd.getD env)
    (sortByBoundary sched) init (Nat.dvd_of_mod_eq_zero hmod)
  obtain ⟨c, hc⟩ := hdvd
  simp only [VirtualBatching.batch_size, VirtualBatching.batch_size_per_step]
  rw [hc]
  exact Nat.mul_mod_right _ _

/-- Witness for C2 at concrete inputs, with a nonempty schedule. -/
theorem claim_C2_schedule_divisibility_witness :
    VirtualBatching.construct 2 128 32 [(3, 4)] (some 2) =
      .ok (VirtualBatching.mk 128 32 [(3, 4)] 2) ∧
    (VirtualBatching.mk 128 32 [(3, 4)] 2).batch_size 5 %
      (VirtualBatching.mk 128 32 [(3, 4)] 2).batch_size_per_step = 0 :=
  ⟨rfl, claim_C2_schedule_divisibility 2 128 32 [(3, 4)] (some 2) _ rfl 5⟩

/-- C3: `batch_size_per_step` equals
`batch_size_per_device_per_step * num_devices` for every instance (it takes
no step argument, so it is the same fixed value at every step); with
`batch_size_per_device_per_step=32` and `num_devices=2` it is 64. -/
theorem claim_C3_batch_size_per_step :
    (∀ vb : VirtualBatching,
      vb.batch_size_per_step =
        vb.batch_size_per_device_per_step * vb.num_devices) ∧
    (VirtualBatching.mk 128 32 [] 2).batch_size_per_step = 64 :=
  ⟨fun _ => rfl, rfl⟩

/-- C4: `apply_update_every(global_step)` is
`batch_size(global_step) // batch_size_per_step` for every instance and
step, and with `batch_size_init=128, batch_size_per_device_per_step=32,
num_devices=2` and no schedule it equals 2 at every step. -/
theorem claim_C4_apply_update_every :
    (∀ (vb : VirtualBatching) (global_step : Nat),
      vb.apply_update_every global_step =
        vb.batch_size global_step / vb.batch_size_per_step) ∧
    (∀ global_step : Nat,
      (VirtualBatching.mk 128 32 [] 2).apply_update_every global_step = 2) :=
  ⟨fun _ _ => rfl, fun _ => by
    simp [VirtualBatching.apply_update_every, VirtualBatching.batch_size,
      VirtualBatching.batch_size_per_step, sortByBoundary]⟩

/-- Counterexample to C5 as stated: `batch_size_init = 0` is accepted by the
constructor (0 is divisible by 64), yet `apply_update_every` returns 0,
which is below 1. -/
theorem claim_C5_counterexample :
    VirtualBatching.construct 2 0 32 [] (some 2) =
      .ok (VirtualBatching.mk 0 32 [] 2) ∧
    ¬ 1 ≤ (VirtualBatching.mk 0 32 [] 2).apply_update_every 0 :=
  ⟨rfl, by decide⟩

/-- C5 (amended): for every successfully constructed instance whose
`batch_size_init` is at least 1 and whose schedule scales are all at least
1, `apply_update_every(global_step)` is at least 1 at every step. -/
theorem claim_C5_apply_update_every_ge_one :
    ∀ env init pdev sched nd (vb : VirtualBatching),
      VirtualBatching.construct env init pdev sched nd = .ok vb →
      1 ≤ init → (∀ p ∈ sched, 1 ≤ p.2) →
      ∀ global_step : Nat, 1 ≤ vb.apply_update_every global_step := by
  intro env init pdev sched nd vb h hinit hsched global_step
  obtain ⟨rfl, hne, hmod⟩ := construct_ok_elim h
  have hpos : 0 < pdev * nd.getD env := Nat.pos_of_ne_zero hne
  have hle_init : pdev * nd.getD env ≤ init :=
    Nat.le_of_dvd (by omega) (Nat.dvd_of_mod_eq_zero hmod)
  have hle_batch : init ≤ (sortByBoundary sched).foldl
      (fun v bs => if global_step < bs.1 then v else v * bs.2) init :=
    le_foldl_scale global_step (sortByBoundary sched) init
      (fun p hp => hsched p (mem_sortByBoundary.mp hp))
  have : pdev * nd.getD env ≤ (sortByBoundary sched).foldl
      (fun v bs => if global_step < bs.1 then v else v * bs.2) init :=
    le_trans hle_init hle_batch
  exact (Nat.one_le_div_iff hpos).mpr this

/-- Witness for C5 at concrete inputs with a nonempty schedule. -/
theorem claim_C5_apply_update_every_ge_one_witness :
    VirtualBatching.construct 2 128 32 [(3, 4)] (some 2) =
      .ok (VirtualBatching.mk 128 32 [(3, 4)] 2) ∧
    1 ≤ (128 : Nat) ∧ (∀ p ∈ [((3 : Nat), (4 : Nat))], 1 ≤ p.2) ∧
    1 ≤ (VirtualBatching.mk 128 32 [(3, 4)] 2).apply_update_every 5 :=
  ⟨rfl, by decide, by decide,
   claim_C5_apply_update_every_ge_one 2 128 32 [(3, 4)] (some 2) _
     rfl (by decide) (by decide) 5⟩

/-- C6: `data_seen(global_step)` is `global_step * batch_size_per_step` for
every instance and step; with `batch_size_per_device_per_step=32` and
`num_devices=2`, `data_seen(10) = 640`. -/
theorem claim_C6_data_seen :
    (∀ (vb : VirtualBatching) (global_step : Nat),
      vb.data_seen global_step = global_step * vb.batch_size_per_step) ∧
    (VirtualBatching.mk 128 32 [] 2).data_seen 10 = 640 :=
  ⟨fun _ _ => rfl, rfl⟩

/-- Counterexample to C7 as stated: when the caller omits `num_devices`
(Python default `None`), the constructor falls back to `jax.device_count()`,
so the same explicit numeric arguments yield different objects in
environments with 1 versus 2 devices. -/
theorem claim_C7_counterexample :
    VirtualBatching.construct 1 128 32 [] none ≠
      VirtualBatching.construct 2 128 32 [] none ∧
    (VirtualBatching.construct 1 128 32 [] none).map
      VirtualBatching.batch_size_per_step = .ok 32 ∧
    (VirtualBatching.construct 2 128 32 [] none).map
      VirtualBatching.batch_size_per_step = .ok 64 :=
  ⟨by simp [VirtualBatching.construct], rfl, rfl⟩

/-- C7 (amended): `num_devices` is an optional constructor parameter; when
the caller supplies it explicitly, construction is independent of the
environment device count, so identical explicit arguments behave
identically on any hardware; when it is omitted, the constructor reads the
environment device count (`jax.device_count()`). -/
theorem claim_C7_explicit_device_count :
    ∀ env1 env2 init pdev sched nd,
      VirtualBatching.construct env1 init pdev sched (some nd) =
        VirtualBatching.construct env2 init pdev sched (some nd) :=
  fun _ _ _ _ _ _ => rfl

/-- C8: queries hold no mutable state: in any call sequence against one
instance, every position holding a given query gets the same result, no
matter where it occurs and how often, across any two sequences. -/
theorem claim_C8_query_determinism :
    ∀ (vb : VirtualBatching) (qs1 qs2 : List Query) (i j : Nat),
      qs1[i]? = qs2[j]? →
      (runQueries vb qs1)[i]? = (runQueries vb qs2)[j]? := by
  intro vb qs1 qs2 i j h
  simp only [runQueries, List.getElem?_map, h]

/-- Witness for C8: the query `batchSize 3` occurring at position 0 of one
call sequence and position 1 of another gets the same result. -/
theorem claim_C8_query_determinism_witness :
    ([Query.batchSize 3, Query.dataSeen 1])[0]? =
      ([Query.dataSeen 7, Query.batchSize 3])[1]? ∧
    (runQueries (VirtualBatching.mk 128 32 [] 2)
        [Query.batchSize 3, Query.dataSeen 1])[0]? =
      (runQueries (VirtualBatching.mk 128 32 [] 2)
        [Query.dataSeen 7, Query.batchSize 3])[1]? :=
  ⟨by decide,
   claim_C8_query_determinism (VirtualBatching.mk 128 32 [] 2)
     [Query.batchSize 3, Query.dataSeen 1]
     [Query.dataSeen 7, Query.batchSize 3] 0 1 (by decide)⟩

/-! ## Helper lemmas about ArrayConcatenater -/

namespace ArrayConcatenater

lemma append_capped {arr : List (List Nat)} {m cur : Nat} (a : List Nat) :
    (ArrayConcatenater.mk arr (some m) cur).append a =
      if cur < m then
        ArrayConcatenater.mk (arr ++ [a.take (m - cur)]) (some m)
          (cur + (a.take (m - cur)).length)
      else ArrayConcatenater.mk arr (some m) cur := by
  by_cases h : cur < m <;> simp [append, h]

lemma append_asarray_capped (arr : List (List Nat)) (m cur : Nat) (a : List Nat) :
    ((ArrayConcatenater.mk arr (some m) cur).append a).asarray =
      (ArrayConcatenater.mk arr (some m) cur).asarray ++ a.take (m - cur) := by
  by_cases h : cur < m
  · simp [append_capped, h, asarray]
  · have hz : m - cur = 0 := Nat.sub_eq_zero_of_le (le_of_not_lt h)
    simp [append_capped, h, asarray, hz]

lemma append_full (arr : List (List Nat)) (m cur : Nat) (a : List Nat)
    (hfull : m ≤ cur) :
    (ArrayConcatenater.mk arr (some m) cur).append a =
      ArrayConcatenater.mk arr (some m) cur := by
  simp [append_capped, Nat.not_lt.mpr hfull]

lemma appendAll_capped_inv (m : Nat) :
    ∀ (arrays : List (List Nat)) (arr : List (List Nat)) (cur : Nat),
      cur = arr.flatten.length → cur ≤ m →
      ∃ arr2 cur2,
        (ArrayConcatenater.mk arr (some m) cur).appendAll arrays =
          ArrayConcatenater.mk arr2 (some m) cur2 ∧
        cur2 = arr2.flatten.length ∧ cur2 ≤ m := by
  intro arrays
  induction arrays with
  | nil => exact fun arr cur h1 h2 => ⟨arr, cur, rfl, h1, h2⟩
  | cons a rest ih =>
      intro arr cur h1 h2
      have hstep : (ArrayConcatenater.mk arr (some m) cur).appendAll (a :: rest) =
          ((ArrayConcatenater.mk arr (some m) cur).append a).appendAll rest := by
        simp [appendAll]
      rw [hstep, append_capped]
      by_cases h : cur < m
      · rw [if_pos h]
        refine ih (arr ++ [a.take (m - cur)]) (cur + (a.take (m - cur)).length)
          (by simp [h1, List.flatten_append]) ?_
        have := List.length_take (m - cur) a
        omega
      · rw [if_neg h]
        exact ih arr cur h1 h2

end ArrayConcatenater

/-- C9: with a capacity `max_len = m`, after any sequence of `append` calls
the stored data has length at most `m`; each further `append` extends the
stored data by its argument truncated to the remaining capacity
(`array[:m - current_len]`, exactly filling the capacity whenever the
argument is long enough); and once the capacity is reached an `append`
leaves the state unchanged. -/
theorem claim_C9_bounded_concatenation :
    ∀ (m : Nat) (arrays : List (List Nat)),
      ((ArrayConcatenater.init (some m)).appendAll arrays).asarray.length ≤ m ∧
      (∀ a : List Nat,
        (((ArrayConcatenater.init (some m)).appendAll arrays).append a).asarray =
          ((ArrayConcatenater.init (some m)).appendAll arrays).asarray ++
            a.take
              (m - ((ArrayConcatenater.init (some m)).appendAll
                arrays)._current_len)) ∧
      (∀ a : List Nat,
        m ≤ ((ArrayConcatenater.init (some m)).appendAll arrays)._current_len →
        ((ArrayConcatenater.init (some m)).appendAll arrays).append a =
          (ArrayConcatenater.init (some m)).appendAll arrays) := by
  intro m arrays
  have hinit : ArrayConcatenater.init (some m) =
      ArrayConcatenater.mk [] (some m) 0 := rfl
  rw [hinit]
  obtain ⟨arr2, cur2, heq, hlen, hle⟩ :=
    ArrayConcatenater.appendAll_capped_inv m arrays [] 0 rfl (Nat.zero_le m)
  rw [heq]
  refine ⟨hlen ▸ hle, ?_, ?_⟩
  · intro a
    exact ArrayConcatenater.append_asarray_capped arr2 m cur2 a
  · intro a hfull
    exact ArrayConcatenater.append_full arr2 m cur2 a hfull

/-- Witness for C9: capacity 5, appends [1,2,3] then [4,5,6] (truncated to
[4,5]); a further append is a no-op. -/
theorem claim_C9_bounded_concatenation_witness :
    ((ArrayConcatenater.init (some 5)).appendAll
        [[1, 2, 3], [4, 5, 6]]).asarray.length ≤ 5 ∧
    (5 ≤ ((ArrayConcatenater.init (some 5)).appendAll
        [[1, 2, 3], [4, 5, 6]])._current_len ∧
      ((ArrayConcatenater.init (some 5)).appendAll
          [[1, 2, 3], [4, 5, 6]]).append [7] =
        (ArrayConcatenater.init (some 5)).appendAll [[1, 2, 3], [4, 5, 6]]) :=
  ⟨(claim_C9_bounded_concatenation 5 [[1, 2, 3], [4, 5, 6]]).1,
   by decide,
   (claim_C9_bounded_concatenation 5 [[1, 2, 3], [4, 5, 6]]).2.2 [7] (by decide)⟩

/-! ## Helper lemmas about per_class_disparity -/

lemma foldl_min_char (g : Nat → ℚ) :
    ∀ (l : List Nat) (m0 : ℚ),
      (l.foldl (fun m i => if g i < m then g i else m) m0 ≤ m0) ∧
      (∀ i ∈ l, l.foldl (fun m i => if g i < m then g i else m) m0 ≤ g i) ∧
      (l.foldl (fun m i => if g i < m then g i else m) m0 = m0 ∨
        ∃ i ∈ l, l.foldl (fun m i => if g i < m then g i else m) m0 = g i) := by
  intro l
  induction l with
  | nil => exact fun m0 => ⟨le_refl _, by simp, Or.inl rfl⟩
  | cons x xs ih =>
      intro m0
      simp only [List.foldl_cons]
      obtain ⟨h1, h2, h3⟩ := ih (if g x < m0 then g x else m0)
      have hstep_le : (if g x < m0 then g x else m0) ≤ m0 := by
        by_cases h : g x < m0
        · simpa [h] using le_of_lt h
        · simp [h]
      have hstep_gx : (if g x < m0 then g x else m0) ≤ g x := by
        by_cases h : g x < m0
        · simp [h]
        · simpa [h] using le_of_not_lt h
      refine ⟨le_trans h1 hstep_le, ?_, ?_⟩
      · intro i hi
        rcases List.mem_cons.mp hi with rfl | hi
        · exact le_trans h1 hstep_gx
        · exact h2 i hi
      · rcases h3 with h3 | ⟨i, hi, hieq⟩
        · by_cases h : g x < m0
          · exact Or.inr ⟨x, List.mem_cons_self _ _, by rw [h3]; simp [h]⟩
          · exact Or.inl (by rw [h3]; simp [h])
        · exact Or.inr ⟨i, List.mem_cons_of_mem _ hi, hieq⟩

lemma foldl_max_char (g : Nat → ℚ) :
    ∀ (l : List Nat) (m0 : ℚ),
      (m0 ≤ l.foldl (fun m i => if m < g i then g i else m) m0) ∧
      (∀ i ∈ l, g i ≤ l.foldl (fun m i => if m < g i then g i else m) m0) ∧
      (l.foldl (fun m i => if m < g i then g i else m) m0 = m0 ∨
        ∃ i ∈ l, l.foldl (fun m i => if m < g i then g i else m) m0 = g i) := by
  intro l
  induction l with
  | nil => exact fun m0 => ⟨le_refl _, by simp, Or.inl rfl⟩
  | cons x xs ih =>
      intro m0
      simp only [List.foldl_cons]
      obtain ⟨h1, h2, h3⟩ := ih (if m0 < g x then g x else m0)
      have hstep_ge : m0 ≤ (if m0 < g x then g x else m0) := by
        by_cases h : m0 < g x
        · simpa [h] using le_of_lt h
        · simp [h]
      have hstep_gx : g x ≤ (if m0 < g x then g x else m0) := by
        by_cases h : m0 < g x
        · simp [h]
        · simpa [h] using le_of_not_lt h
      refine ⟨le_trans hstep_ge h1, ?_, ?_⟩
      · intro i hi
        rcases List.mem_cons.mp hi with rfl | hi
        · exact le_trans hstep_gx h1
        · exact h2 i hi
      · rcases h3 with h3 | ⟨i, hi, hieq⟩
        · by_cases h : m0 < g x
          · exact Or.inr ⟨x, List.mem_cons_self _ _, by rw [h3]; simp [h]⟩
          · exact Or.inl (by rw [h3]; simp [h])
        · exact Or.inr ⟨i, List.mem_cons_of_mem _ hi, hieq⟩

lemma foldl_id_rat : ∀ (l : List Nat) (m0 : ℚ),
    l.foldl (fun m _ => m) m0 = m0 := by
  intro l
  induction l with
  | nil => exact fun _ => rfl
  | cons x xs ih =>
      intro m0
      simp only [List.foldl_cons]
      exact ih m0

lemma maxDisparityRel_of_ne (n : Nat) (ca : Nat → ℚ) (avg : ℚ) (h : avg ≠ 1) :
    maxDisparityRel n ca avg =
      (List.range n).foldl
        (fun m i =>
          if m < (1 - ca i) / (1 - avg) then (1 - ca i) / (1 - avg) else m)
        1 := by
  unfold maxDisparityRel
  congr 1
  funext m i
  simp [h]

lemma maxDisparityRel_of_eq (n : Nat) (ca : Nat → ℚ) (avg : ℚ) (h : avg = 1) :
    maxDisparityRel n ca avg = 1 := by
  unfold maxDisparityRel
  subst h
  have hfun : (fun (m : ℚ) (i : Nat) =>
      if (1 : ℚ) ≠ 1 then
        if m < (1 - ca i) / (1 - 1) then (1 - ca i) / (1 - 1) else m
      else m) = fun (m : ℚ) (_ : Nat) => m := by
    funext m i
    simp
  rw [hfun, foldl_id_rat]

/-- C10: on every input on which `per_class_disparity` succeeds (equal-length
label and prediction sequences over `n` classes, every class occurring as a
true label), the returned `min_disparity_abs` is at most 0 and equals the
minimum over classes of (class accuracy - overall accuracy) capped above at
0, and `max_disparity_rel` is at least 1 and equals the maximum over classes
of (1 - class accuracy)/(1 - overall accuracy) floored below at 1, the
relative term only being considered when the overall accuracy is not 1. -/
theorem claim_C10_disparity_bounds :
    ∀ (n : Nat) (labels predictions : List Nat),
      labels.length = predictions.length →
      (∀ x ∈ labels, x < n) →
      (∀ x ∈ predictions, x < n) →
      (∀ i, i < n → i ∈ labels) →
      ((per_class_disparity n labels predictions).1 ≤ 0 ∧
        1 ≤ (per_class_disparity n labels predictions).2) ∧
      (∀ i, i < n →
        (per_class_disparity n labels predictions).1 ≤
          per_class_mean n labels predictions i -
            avg_acc n labels predictions) ∧
      ((per_class_disparity n labels predictions).1 = 0 ∨
        ∃ i, i < n ∧ (per_class_disparity n labels predictions).1 =
          per_class_mean n labels predictions i -
            avg_acc n labels predictions) ∧
      (avg_acc n labels predictions ≠ 1 →
        (∀ i, i < n →
          (1 - per_class_mean n labels predictions i) /
              (1 - avg_acc n labels predictions) ≤
            (per_class_disparity n labels predictions).2) ∧
        ((per_class_disparity n labels predictions).2 = 1 ∨
          ∃ i, i < n ∧ (per_class_disparity n labels predictions).2 =
            (1 - per_class_mean n labels predictions i) /
              (1 - avg_acc n labels predictions))) ∧
      (avg_acc n labels predictions = 1 →
        (per_class_disparity n labels predictions).2 = 1) := by
  intro n labels predictions _ _ _ _
  set ca := per_class_mean n labels predictions with hca
  set avg := avg_acc n labels predictions with havg_def
  have hfst : (per_class_disparity n labels predictions).1 =
      minDisparityAbs n ca avg := rfl
  have hsnd : (per_class_disparity n labels predictions).2 =
      maxDisparityRel n ca avg := rfl
  obtain ⟨hmin_le, hmin_mem, hmin_eq⟩ :=
    foldl_min_char (fun i => ca i - avg) (List.range n) 0
  have hmax_of_ne : avg ≠ 1 →
      (∀ i, i < n → (1 - ca i) / (1 - avg) ≤ maxDisparityRel n ca avg) ∧
      (maxDisparityRel n ca avg = 1 ∨
        ∃ i, i < n ∧ maxDisparityRel n ca avg = (1 - ca i) / (1 - avg)) := by
    intro hne
    obtain ⟨hge, hmem, heq⟩ :=
      foldl_max_char (fun i => (1 - ca i) / (1 - avg)) (List.range n) 1
    rw [maxDisparityRel_of_ne n ca avg hne]
    refine ⟨fun i hi => hmem i (List.mem_range.mpr hi), ?_⟩
    rcases heq with heq | ⟨i, hi, hieq⟩
    · exact Or.inl heq
    · exact Or.inr ⟨i, List.mem_range.mp hi, hieq⟩
  have h_snd_ge_one : 1 ≤ maxDisparityRel n ca avg := by
    by_cases hne : avg = 1
    · rw [maxDisparityRel_of_eq n ca avg hne]
    · rw [maxDisparityRel_of_ne n ca avg hne]
      exact (foldl_max_char (fun i => (1 - ca i) / (1 - avg))
        (List.range n) 1).1
  refine ⟨⟨?_, ?_⟩, ?_, ?_, ?_, ?_⟩
  · rw [hfst]
    exact hmin_le
  · rw [hsnd]
    exact h_snd_ge_one
  · intro i hi
    rw [hfst]
    exact hmin_mem i (List.mem_range.mpr hi)
  · rw [hfst]
    rcases hmin_eq with h | ⟨i, hi, hieq⟩
    · exact Or.inl h
    · exact Or.inr ⟨i, List.mem_range.mp hi, hieq⟩
  · intro hne
    rw [hsnd]
    exact hmax_of_ne hne
  · intro heq
    rw [hsnd]
    exact maxDisparityRel_of_eq n ca avg heq

/-- Witness for C10: two classes, labels [0, 1, 0], predictions [0, 1, 1];
overall accuracy 2/3, class accuracies 1/2 and 1, so min_disparity_abs is
at most 0 and max_disparity_rel is at least 1. -/
theorem claim_C10_disparity_bounds_witness :
    (per_class_disparity 2 [0, 1, 0] [0, 1, 1]).1 ≤ 0 ∧
    1 ≤ (per_class_disparity 2 [0, 1, 0] [0, 1, 1]).2 :=
  (claim_C10_disparity_bounds 2 [0, 1, 0] [0, 1, 1]
    (by decide) (by decide) (by decide) (by decide)).1

end JaxPrivacy

